import Mathlib

/-!
Shallow embedding of the Bear-notes single-page application
(source file: a single React component).  JavaScript strings are
modelled as lists of characters (a Lean String wraps exactly such a
list), machine timestamps (milliseconds from Date.now) as Nat, and the
browser key-value store (localStorage) as an Option String cell.
-/

set_option maxRecDepth 10000

/-- Word characters of the JavaScript regex class [\w-]:
ASCII letters, digits, underscore, hyphen. -/
def isWordChar (c : Char) : Bool :=
  (('a' ≤ c && c ≤ 'z') || ('A' ≤ c && c ≤ 'Z') || ('0' ≤ c && c ≤ '9') || c = '_' || c = '-')

/-- Does the pattern (first argument) occur at the very start of the text? -/
def leadsWith : List Char → List Char → Bool
  | [], _ => true
  | _ :: _, [] => false
  | a :: as, b :: bs => a = b && leadsWith as bs

/-- Substring containment on character lists: JavaScript
String.prototype.includes. -/
def containsSub : List Char → List Char → Bool
  | [], pat => pat.isEmpty
  | s@(_ :: rest), pat => leadsWith pat s || containsSub rest pat

/-- Split a character list at the first character failing isWordChar:
the greedy match of [\w-]* and the remainder. -/
def takeWord : List Char → List Char × List Char
  | [] => ([], [])
  | c :: cs =>
    if isWordChar c then
      let p := takeWord cs
      (c :: p.1, p.2)
    else ([], c :: cs)

/-- Leading and trailing whitespace removed: JavaScript String.prototype.trim
(restricted to the ASCII whitespace that occurs in notes). -/
def trimChars (s : List Char) : List Char :=
  ((s.dropWhile Char.isWhitespace).reverse.dropWhile Char.isWhitespace).reverse

/-- JavaScript String.prototype.split on the newline character:
always returns at least one (possibly empty) field. -/
def splitLines : List Char → List (List Char)
  | [] => [[]]
  | c :: cs =>
    let r := splitLines cs
    if c = '\n' then [] :: r
    else
      match r with
      | [] => [[c]]
      | l :: ls => (c :: l) :: ls

/-- Decimal digit character for a value below ten. -/
def decDigit (d : Nat) : Char := Char.ofNat (48 + d)

/-- Decimal digits of a number, most significant first; the fuel argument
is an upper bound on the recursion depth (the number itself suffices). -/
def natToDecAux : Nat → Nat → List Char
  | 0, _ => []
  | fuel + 1, n =>
    if n < 10 then [decDigit n]
    else natToDecAux fuel (n / 10) ++ [decDigit (n % 10)]

/-- Decimal rendering of a Nat, as JavaScript Number.prototype.toString
renders an integral timestamp. -/
def natToDec (n : Nat) : List Char := natToDecAux (n + 1) n

/-- String form of a timestamp: Date.now().toString(). -/
def natToString (n : Nat) : String := String.mk (natToDec n)

/-- The Note entity of the application (interface Note in the source);
Date fields are the underlying millisecond instants. -/
structure Note where
  id : String
  title : String
  content : String
  tags : List String
  createdAt : Nat
  updatedAt : Nat
  isStarred : Bool
  isArchived : Bool
deriving Repr, DecidableEq

/-- Matches of the global regex #[\w-]+ in a character list, leading '#'
not included, left to right and non-overlapping; fuel bounds the recursion
(the length of the text suffices since every step consumes a character). -/
def findTags : Nat → List Char → List (List Char)
  | 0, _ => []
  | _ + 1, [] => []
  | fuel + 1, c :: cs =>
    if c = '#' then
      let p := takeWord cs
      if p.1.isEmpty then findTags fuel cs
      else p.1 :: findTags fuel p.2
    else findTags fuel cs

/-- Tag extraction (extractTags in the source): every match of #[\w-]+
with the '#' stripped and the token lowercased, in occurrence order.
The source does not deduplicate. -/
def extractTags (content : String) : List String :=
  (findTags content.data.length content.data).map
    (fun w => String.mk (w.map Char.toLower))

/-- Fixed onboarding content of the seeded welcome note (the template
literal in the source, verbatim). -/
def welcomeContent : String := "# Welcome to Bear Notes! 🐻

This is your personal note hosting platform inspired by Bear.

## Features
- **Markdown support** for beautiful formatting
- **Tag organization** using #hashtags
- **Quick search** to find anything instantly
- **Star important notes** ⭐
- **Archive old notes** 📦

## Getting Started
1. Create a new note with the + button
2. Use #tags to organize your thoughts
3. Star important notes for quick access
4. Use the search to find anything instantly

## Markdown Examples
You can use **bold**, *italic*, and `code` formatting.

### Lists
- Item one
- Item two
- Item three

### Tags
Add tags anywhere in your notes: #personal #work #ideas

Happy note-taking! 📝

#welcome #getting-started"

/-- The welcome note seeded on first run (welcomeNote in the source); its
tags list is hardcoded there, and its two Date fields hold the load
instant, modelled as instant 0. -/
def welcomeNote : Note :=
  { id := "welcome"
    title := "Welcome to Bear Notes"
    content := welcomeContent
    tags := ["welcome", "getting-started"]
    createdAt := 0
    updatedAt := 0
    isStarred := true
    isArchived := false }

/-- Partial Note (the TypeScript Partial type used by updateNote): each
field optionally present.  The updatedAt entry is representable but the
source always overwrites updatedAt after the merge. -/
structure NoteUpdate where
  id : Option String := none
  title : Option String := none
  content : Option String := none
  tags : Option (List String) := none
  createdAt : Option Nat := none
  updatedAt : Option Nat := none
  isStarred : Option Bool := none
  isArchived : Option Bool := none
deriving Repr, DecidableEq

/-- The object spread in updateNote: fields of the partial override the
note, then updatedAt is set to the current instant. -/
def applyUpdate (n : Note) (u : NoteUpdate) (now : Nat) : Note :=
  { id := u.id.getD n.id
    title := u.title.getD n.title
    content := u.content.getD n.content
    tags := u.tags.getD n.tags
    createdAt := u.createdAt.getD n.createdAt
    updatedAt := now
    isStarred := u.isStarred.getD n.isStarred
    isArchived := u.isArchived.getD n.isArchived }

/-- updateNote from the source: map over the list, merging the partial
into the note whose id matches. -/
def updateNote (noteId : String) (u : NoteUpdate) (now : Nat)
    (notes : List Note) : List Note :=
  notes.map (fun n => if n.id = noteId then applyUpdate n u now else n)

/-- createNote from the source: a fresh untitled note, id the current
instant rendered in decimal, prepended to the list. -/
def createNote (now : Nat) (notes : List Note) : List Note :=
  { id := natToString now
    title := "Untitled Note"
    content := ""
    tags := []
    createdAt := now
    updatedAt := now
    isStarred := false
    isArchived := false } :: notes

/-- Strip of the regex ^#\s* used for the derived title: one leading '#'
and any following whitespace removed. -/
def stripTitleHash : List Char → List Char
  | '#' :: rest => rest.dropWhile Char.isWhitespace
  | l => l

/-- Title derivation in saveNote: first line of the content, leading
hash stripped, defaulting to the placeholder when empty. -/
def deriveTitle (content : String) : String :=
  let firstLine := (splitLines content.data).headD []
  let stripped := stripTitleHash firstLine
  if stripped.isEmpty then "Untitled Note" else String.mk stripped

/-- The partial passed by saveNote for a given editor buffer. -/
def saveUpdate (content : String) : NoteUpdate :=
  { title := some (deriveTitle content)
    content := some content
    tags := some (extractTags content) }

/-- toggleStar from the source: negates the isStarred of the first note
found with the id (negation of undefined when absent). -/
def toggleStar (noteId : String) (now : Nat) (notes : List Note) : List Note :=
  let prev := ((notes.find? (fun n => n.id == noteId)).map Note.isStarred).getD false
  updateNote noteId { isStarred := some (!prev) } now notes

/-- toggleArchive from the source, analogous to toggleStar. -/
def toggleArchive (noteId : String) (now : Nat) (notes : List Note) : List Note :=
  let prev := ((notes.find? (fun n => n.id == noteId)).map Note.isArchived).getD false
  updateNote noteId { isArchived := some (!prev) } now notes

/-- deleteNote from the source: keep the notes whose id differs. -/
def deleteNote (noteId : String) (notes : List Note) : List Note :=
  notes.filter (fun n => n.id != noteId)

/-- The note-list mutations the user interface can perform, each carrying
the Date.now() instant observed when it runs. -/
inductive Op where
  | create (now : Nat)
  | save (id : String) (content : String) (now : Nat)
  | star (id : String) (now : Nat)
  | archive (id : String) (now : Nat)
  | delete (id : String)
deriving Repr, DecidableEq

/-- One user operation applied to the note list. -/
def applyOp (notes : List Note) : Op → List Note
  | .create now => createNote now notes
  | .save id content now => updateNote id (saveUpdate content) now notes
  | .star id now => toggleStar id now notes
  | .archive id now => toggleArchive id now notes
  | .delete id => deleteNote id notes

/-- Note list reached from the seeded first-run state by a sequence of
user operations. -/
def runOps (ops : List Op) : List Note := ops.foldl applyOp [welcomeNote]

/-- Rendering of a Bool in JSON. -/
def boolStr : Bool → String
  | true => "true"
  | false => "false"

/-- JSON string literal; the notes in the claims contain no characters
needing escapes, which are therefore not modelled. -/
def quoteStr (s : String) : String := "\"" ++ s ++ "\""

/-- Serialization of one note as JSON.stringify renders it: the object
fields in declaration order, the Date fields rendered from their
instant. -/
def serializeNote (n : Note) : String :=
  "\x7b\"id\":" ++ quoteStr n.id ++
  ",\"title\":" ++ quoteStr n.title ++
  ",\"content\":" ++ quoteStr n.content ++
  ",\"tags\":[" ++ String.intercalate "," (n.tags.map quoteStr) ++
  "],\"createdAt\":" ++ quoteStr (natToString n.createdAt) ++
  ",\"updatedAt\":" ++ quoteStr (natToString n.updatedAt) ++
  ",\"isStarred\":" ++ boolStr n.isStarred ++
  ",\"isArchived\":" ++ boolStr n.isArchived ++ "\x7d"

/-- Full serialization of the note list (JSON.stringify(notes)). -/
def serializeNotes (notes : List Note) : String :=
  "[" ++ String.intercalate "," (notes.map serializeNote) ++ "]"

/-- The save effect of the source: after every change of the note list,
write the full serialization under the fixed key — but only when the
list is non-empty; an empty list leaves the stored value untouched. -/
def saveEffect (notes : List Note) (store : Option String) : Option String :=
  if notes.length > 0 then some (serializeNotes notes) else store

/-- One user operation applied to the pair of note list and stored
value: the mutation followed by the save effect. -/
def stepWithStore (s : List Note × Option String) (op : Op) :
    List Note × Option String :=
  let notes := applyOp s.1 op
  (notes, saveEffect notes s.2)

/-- State of note list and store reached from the seeded first run (the
seeding itself triggers the save effect) by a sequence of operations. -/
def runStore (ops : List Op) : List Note × Option String :=
  ops.foldl stepWithStore ([welcomeNote], saveEffect [welcomeNote] none)

/-- The load effect of the source, run once at startup.  Its input is
the stored value and the outcome JSON.parse would have on it (none when
the parse throws); the source wraps the parse in no handler, so a throw
escapes the effect as an unhandled error, modelled as the error case.
An absent or empty stored value seeds the welcome note. -/
def loadNotes (saved : Option String) (parsed : Option (List Note)) :
    Except String (List Note) :=
  match saved with
  | none => .ok [welcomeNote]
  | some s =>
    if s = "" then .ok [welcomeNote]
    else
      match parsed with
      | some notes => .ok notes
      | none => .error "unhandled SyntaxError from JSON.parse"

/-- Lowercasing of a whole string, character by character, as
String.prototype.toLowerCase acts on the ASCII text of notes. -/
def lowerStr (s : String) : String := String.mk (s.data.map Char.toLower)

/-- Substring test between strings (JavaScript includes). -/
def strIncludes (s pat : String) : Bool := containsSub s.data pat.data

/-- The search predicate of filteredNotes: case-insensitive substring
match of the term against title, content, or any tag. -/
def matchesSearch (note : Note) (searchTerm : String) : Bool :=
  strIncludes (lowerStr note.title) (lowerStr searchTerm) ||
  strIncludes (lowerStr note.content) (lowerStr searchTerm) ||
  note.tags.any (fun tag => strIncludes (lowerStr tag) (lowerStr searchTerm))

/-- The per-note predicate of filteredNotes, in the source's order of
early returns; an empty search term is falsy in the source's test. -/
def noteMatchesFilter (selectedTag searchTerm : String) (note : Note) : Bool :=
  if selectedTag = "starred" ∧ note.isStarred = false then false
  else if selectedTag = "archived" ∧ note.isArchived = false then false
  else if selectedTag = "untagged" ∧ 0 < note.tags.length then false
  else if (selectedTag ≠ "all" ∧ selectedTag ≠ "starred" ∧ selectedTag ≠ "archived" ∧
      selectedTag ≠ "untagged") ∧ selectedTag ∉ note.tags then false
  else if searchTerm ≠ "" then matchesSearch note searchTerm
  else decide (note.isArchived = false ∨ selectedTag = "archived")

/-- The filtered note list shown in the sidebar. -/
def filteredNotes (notes : List Note) (selectedTag searchTerm : String) :
    List Note :=
  notes.filter (noteMatchesFilter selectedTag searchTerm)

/-- One rendered unit of markdown output. -/
inductive Block where
  | heading (level : Nat) (text : String)
  | listItem (text : String)
  | lineBreak
  | paragraph (html : String)
deriving Repr, DecidableEq

/-- Split a character list around the first occurrence of a pattern:
the part before it and the part after it, or none when absent. -/
def splitFirst (pat : List Char) : List Char → Option (List Char × List Char)
  | [] => if pat.isEmpty then some ([], []) else none
  | c :: cs =>
    if leadsWith pat (c :: cs) then some ([], (c :: cs).drop pat.length)
    else
      match splitFirst pat cs with
      | some (pre, post) => some (c :: pre, post)
      | none => none

/-- Global replacement of the lazy pattern delim(.*?)delim by
pre-group-post, scanning left to right and never rescanning emitted
text, as a global JavaScript regex replace does; fuel bounds the number
of replacements (the text length suffices, each match eating at least
two characters). -/
def replaceWrappedAux (delim pre post : List Char) :
    Nat → List Char → List Char
  | 0, s => s
  | fuel + 1, s =>
    match splitFirst delim s with
    | none => s
    | some (a, rest) =>
      match splitFirst delim rest with
      | none => s
      | some (grp, rest2) =>
        a ++ pre ++ grp ++ post ++ replaceWrappedAux delim pre post fuel rest2

/-- Entry point of the wrapped-pattern replacement at sufficient fuel. -/
def replaceWrapped (delim pre post s : List Char) : List Char :=
  replaceWrappedAux delim pre post s.length s

/-- Global replacement of the tag pattern #([\w-]+) by the highlight
span, keeping the token; fuel bounds the recursion (length suffices). -/
def replaceTagsAux (pre post : List Char) : Nat → List Char → List Char
  | 0, s => s
  | _ + 1, [] => []
  | fuel + 1, c :: cs =>
    if c = '#' then
      let p := takeWord cs
      if p.1.isEmpty then c :: replaceTagsAux pre post fuel cs
      else pre ++ c :: p.1 ++ post ++ replaceTagsAux pre post fuel p.2
    else c :: replaceTagsAux pre post fuel cs

/-- Opening of the inline-code span emitted by the renderer. -/
def codeOpen : String := "<code class=\"bg-gray-100 px-1 py-0.5 rounded text-sm\">"

/-- Opening of the tag-highlight span emitted by the renderer. -/
def tagOpen : String := "<span class=\"text-blue-600 font-medium\">"

/-- The four inline substitutions of the renderer in source order:
bold, italic, inline code, tag highlighting — plain sequential string
replacement on the same line, no escaping of anything. -/
def formatInline (line : List Char) : List Char :=
  let s1 := replaceWrapped ['*', '*'] "<strong>".data "</strong>".data line
  let s2 := replaceWrapped ['*'] "<em>".data "</em>".data s1
  let s3 := replaceWrapped "`".data codeOpen.data "</code>".data s2
  replaceTagsAux tagOpen.data "</span>".data s3.length s3

/-- Classification of one line by the renderer, in the source's order of
tests. -/
def renderLine (line : List Char) : Block :=
  if leadsWith "# ".data line then .heading 1 (String.mk (line.drop 2))
  else if leadsWith "## ".data line then .heading 2 (String.mk (line.drop 3))
  else if leadsWith "### ".data line then .heading 3 (String.mk (line.drop 4))
  else if leadsWith "- ".data line then .listItem (String.mk (line.drop 2))
  else if trimChars line = [] then .lineBreak
  else .paragraph (String.mk (formatInline line))

/-- renderContent from the source: split on newline, render each line
independently. -/
def renderContent (content : String) : List Block :=
  (splitLines content.data).map renderLine

theorem noteMatchesFilter_all (term : String) (n : Note) :
    noteMatchesFilter "all" term n =
      if term ≠ "" then matchesSearch n term
      else decide (n.isArchived = false) := by
  unfold noteMatchesFilter
  rw [if_neg, if_neg, if_neg, if_neg]
  · rcases eq_or_ne term "" with h | h
    · simp [h]
    · simp [h]
  · rintro ⟨⟨h, _, _, _⟩, _⟩; exact h rfl
  · rintro ⟨h, _⟩; exact absurd h (by decide)
  · rintro ⟨h, _⟩; exact absurd h (by decide)
  · rintro ⟨h, _⟩; exact absurd h (by decide)

theorem noteMatchesFilter_archived (n : Note) :
    noteMatchesFilter "archived" "" n = n.isArchived := by
  unfold noteMatchesFilter
  cases h : n.isArchived with
  | false =>
    rw [if_neg, if_pos]
    · exact ⟨rfl, rfl⟩
    · rintro ⟨h1, _⟩; exact absurd h1 (by decide)
  | true =>
    rw [if_neg, if_neg, if_neg, if_neg, if_neg]
    · decide
    · simp
    · rintro ⟨⟨_, _, h2, _⟩, _⟩; exact h2 rfl
    · rintro ⟨h1, _⟩; exact absurd h1 (by decide)
    · rintro ⟨_, h2⟩; exact absurd h2 (by decide)
    · rintro ⟨h1, _⟩; exact absurd h1 (by decide)

/-- Sample archived note used by concrete witnesses. -/
def noteA : Note :=
  { id := "a"
    title := "foo bar"
    content := "hello"
    tags := []
    createdAt := 0
    updatedAt := 0
    isStarred := false
    isArchived := true }

/-- C1: with the selector "all" and an empty search term the filter
excludes every archived note; with a non-empty search term every note
satisfying the search predicate — archived ones included — is kept. -/
theorem C1_filter_all (notes : List Note) (term : String) :
    (∀ n ∈ filteredNotes notes "all" "", n.isArchived = false) ∧
    (term ≠ "" → ∀ n ∈ notes, n.isArchived = true → matchesSearch n term = true →
      n ∈ filteredNotes notes "all" term) := by
  constructor
  · intro n hn
    rw [filteredNotes, List.mem_filter] at hn
    have h2 := hn.2
    rw [noteMatchesFilter_all] at h2
    simp only [ne_eq, not_true_eq_false, if_false] at h2
    exact of_decide_eq_true h2
  · intro hterm n hn _ hsearch
    rw [filteredNotes, List.mem_filter]
    refine ⟨hn, ?_⟩
    rw [noteMatchesFilter_all, if_pos hterm]
    exact hsearch

/-- Witness of C1 at a concrete archived note whose title contains the
search term. -/
theorem C1_witness :
    (("foo" : String) ≠ "" ∧ noteA.isArchived = true ∧
      matchesSearch noteA "foo" = true) ∧
    noteA ∈ filteredNotes [noteA] "all" "foo" :=
  ⟨by decide,
    (C1_filter_all [noteA] "foo").2 (by decide) noteA (by simp) (by decide) (by decide)⟩

/-- C8: the filter returns a subsequence of its input (order preserved),
and with the selector "archived" and empty search term it returns exactly
the archived notes in original order. -/
theorem C8_filter_order (notes : List Note) (selectedTag searchTerm : String) :
    List.Sublist (filteredNotes notes selectedTag searchTerm) notes ∧
    filteredNotes notes "archived" "" = notes.filter (fun n => n.isArchived) := by
  constructor
  · exact List.filter_sublist notes
  · unfold filteredNotes
    exact List.filter_congr (fun n _ => noteMatchesFilter_archived n)

theorem takeWord_append (cs : List Char) :
    (takeWord cs).1 ++ (takeWord cs).2 = cs := by
  induction cs with
  | nil => rfl
  | cons c cs ih =>
    rw [takeWord]
    by_cases h : isWordChar c
    · simp only [h, if_true, List.cons_append]
      rw [ih]
    · simp [h]

theorem takeWord_word (cs : List Char) :
    ∀ c ∈ (takeWord cs).1, isWordChar c = true := by
  induction cs with
  | nil => simp [takeWord]
  | cons c cs ih =>
    rw [takeWord]
    by_cases h : isWordChar c
    · simp only [h, if_true]
      intro x hx
      rcases List.mem_cons.1 hx with h1 | h1
      · rw [h1]; exact h
      · exact ih x h1
    · simp [h]

theorem leadsWith_append_self (w r : List Char) :
    leadsWith w (w ++ r) = true := by
  induction w with
  | nil => rfl
  | cons a as ih => simp [leadsWith, ih]

theorem containsSub_cons (c : Char) (rest pat : List Char)
    (h : containsSub rest pat = true) : containsSub (c :: rest) pat = true := by
  rw [containsSub]
  simp [h]

theorem containsSub_append_left (xs r pat : List Char)
    (h : containsSub r pat = true) : containsSub (xs ++ r) pat = true := by
  induction xs with
  | nil => exact h
  | cons x xs ih => exact containsSub_cons x (xs ++ r) pat ih

theorem containsSub_of_leadsWith (pat s : List Char)
    (h : leadsWith pat s = true) : containsSub s pat = true := by
  cases s with
  | nil =>
    cases pat with
    | nil => rfl
    | cons p ps => exact absurd h (by simp [leadsWith])
  | cons c cs =>
    rw [containsSub]
    simp [h]

theorem findTags_sound (fuel : Nat) :
    ∀ s : List Char, ∀ w ∈ findTags fuel s, w ≠ [] ∧
      (∀ c ∈ w, isWordChar c = true) ∧ containsSub s ('#' :: w) = true := by
  induction fuel with
  | zero => intro s w hw; exact absurd hw (by simp [findTags])
  | succ fuel ih =>
    intro s w hw
    cases s with
    | nil => exact absurd hw (by simp [findTags])
    | cons c cs =>
      rw [findTags] at hw
      by_cases hc : c = '#'
      · rw [if_pos hc] at hw
        simp only at hw
        by_cases hemp : (takeWord cs).1.isEmpty
        · rw [if_pos hemp] at hw
          obtain ⟨h1, h2, h3⟩ := ih cs w hw
          exact ⟨h1, h2, containsSub_cons c cs _ h3⟩
        · rw [if_neg hemp] at hw
          rcases List.mem_cons.1 hw with h1 | h1
          · subst h1
            refine ⟨fun h => hemp (by simp [h]), takeWord_word cs, ?_⟩
            apply containsSub_of_leadsWith
            rw [hc, leadsWith]
            have hl : leadsWith (takeWord cs).1 cs = true := by
              have h := takeWord_append cs
              calc leadsWith (takeWord cs).1 cs
                  = leadsWith (takeWord cs).1 ((takeWord cs).1 ++ (takeWord cs).2) := by
                    rw [h]
                _ = true := leadsWith_append_self _ _
            simp [hl]
          · obtain ⟨h1', h2, h3⟩ := ih (takeWord cs).2 w h1
            refine ⟨h1', h2, containsSub_cons c cs _ ?_⟩
            have := containsSub_append_left (takeWord cs).1 (takeWord cs).2 _ h3
            rw [takeWord_append] at this
            exact this
      · rw [if_neg hc] at hw
        obtain ⟨h1, h2, h3⟩ := ih cs w hw
        exact ⟨h1, h2, containsSub_cons c cs _ h3⟩

/-- Counterexample to C2 as stated: the source's extractTags keeps
duplicate occurrences, so its result is not duplicate-free. -/
theorem C2_counterexample :
    extractTags "#a #a" = ["a", "a"] ∧ ¬ (extractTags "#a #a").Nodup := by
  constructor
  · decide
  · decide

/-- C2 (amended): every returned tag is the lowercase image of a
non-empty token of characters matching [A-Za-z0-9_-] that occurs
preceded by '#' in the text; duplicates are kept (the source does not
deduplicate), as the concrete evaluation shows. -/
theorem C2_extract_sound (text : String) :
    (∀ t ∈ extractTags text, t ≠ "" ∧
      ∃ w, w ≠ [] ∧ (∀ c ∈ w, isWordChar c = true) ∧
        t.data = w.map Char.toLower ∧
        containsSub text.data ('#' :: w) = true) ∧
    extractTags "#Foo #foo" = ["foo", "foo"] := by
  constructor
  · intro t ht
    rw [extractTags, List.mem_map] at ht
    obtain ⟨w, hw, hmk⟩ := ht
    obtain ⟨h1, h2, h3⟩ := findTags_sound text.data.length text.data w hw
    refine ⟨?_, w, h1, h2, ?_, h3⟩
    · intro h
      rw [← hmk] at h
      have : (String.mk (w.map Char.toLower)).data = ("" : String).data := by rw [h]
      simp only [String.data] at this
      exact h1 (List.map_eq_nil_iff.1 this)
    · rw [← hmk]
  · decide

/-- Witness of C2 applied at a concrete text. -/
theorem C2_witness :
    ("a" : String) ≠ "" ∧
    ∃ w, w ≠ [] ∧ (∀ c ∈ w, isWordChar c = true) ∧
      ("a" : String).data = w.map Char.toLower ∧
      containsSub ("#a" : String).data ('#' :: w) = true :=
  (C2_extract_sound "#a").1 "a" (by decide)

/-- The tag/content relation the notes maintain: either the tags are
exactly the extraction from the content (as every save establishes), or
the note is the seeded welcome note with its hardcoded tag list. -/
def TagInv (n : Note) : Prop :=
  n.tags = extractTags n.content ∨
    (n.id = "welcome" ∧ n.tags = ["welcome", "getting-started"] ∧
      n.content = welcomeContent)

theorem TagInv_of_fields (n m : Note) (ht : m.tags = n.tags)
    (hc : m.content = n.content) (hid : m.id = n.id) (h : TagInv n) :
    TagInv m := by
  rcases h with h | ⟨h1, h2, h3⟩
  · left; rw [ht, hc, h]
  · right; exact ⟨by rw [hid, h1], by rw [ht, h2], by rw [hc, h3]⟩

theorem applyOp_TagInv (notes : List Note) (op : Op)
    (h : ∀ n ∈ notes, TagInv n) : ∀ n ∈ applyOp notes op, TagInv n := by
  cases op with
  | create now =>
    intro n hn
    rcases List.mem_cons.1 hn with h1 | h1
    · rw [h1]; left; rfl
    · exact h n h1
  | save id content now =>
    intro m hm
    rw [applyOp, updateNote] at hm
    obtain ⟨n, hn, heq⟩ := List.mem_map.1 hm
    by_cases hid : n.id = id
    · rw [if_pos hid] at heq
      left
      rw [← heq]
      rfl
    · rw [if_neg hid] at heq
      exact heq ▸ h n hn
  | star id now =>
    intro m hm
    rw [applyOp, toggleStar, updateNote] at hm
    obtain ⟨n, hn, heq⟩ := List.mem_map.1 hm
    by_cases hid : n.id = id
    · rw [if_pos hid] at heq
      exact TagInv_of_fields n m (by rw [← heq]; rfl) (by rw [← heq]; rfl)
        (by rw [← heq]; rfl) (h n hn)
    · rw [if_neg hid] at heq
      exact heq ▸ h n hn
  | archive id now =>
    intro m hm
    rw [applyOp, toggleArchive, updateNote] at hm
    obtain ⟨n, hn, heq⟩ := List.mem_map.1 hm
    by_cases hid : n.id = id
    · rw [if_pos hid] at heq
      exact TagInv_of_fields n m (by rw [← heq]; rfl) (by rw [← heq]; rfl)
        (by rw [← heq]; rfl) (h n hn)
    · rw [if_neg hid] at heq
      exact heq ▸ h n hn
  | delete id =>
    intro n hn
    rw [applyOp, deleteNote] at hn
    exact h n (List.mem_filter.1 hn).1

theorem foldl_applyOp_TagInv (ops : List Op) :
    ∀ notes, (∀ n ∈ notes, TagInv n) →
      ∀ n ∈ ops.foldl applyOp notes, TagInv n := by
  induction ops with
  | nil => intro notes h; exact h
  | cons op ops ih =>
    intro notes h
    rw [List.foldl_cons]
    exact ih (applyOp notes op) (applyOp_TagInv notes op h)

/-- Counterexample to C3 as stated: the seeded welcome note's hardcoded
tag list is not the extraction of its content — the extraction holds
five further tags occurring in the onboarding text. -/
theorem C3_counterexample :
    welcomeNote.tags ≠ extractTags welcomeNote.content ∧
    extractTags welcomeNote.content =
      ["hashtags", "tags", "personal", "work", "ideas", "welcome",
        "getting-started"] ∧
    welcomeNote.tags = ["welcome", "getting-started"] := by
  refine ⟨by decide, by decide, by decide⟩

/-- C3 (amended): in every state reachable from the seeded first run by
create, save, star, archive and delete operations, each note's tags are
exactly the tag extraction of its content — except the seeded welcome
note, whose tags remain its hardcoded pair until a save replaces them. -/
theorem C3_tags_invariant (ops : List Op) : ∀ n ∈ runOps ops, TagInv n := by
  rw [runOps]
  refine foldl_applyOp_TagInv ops [welcomeNote] ?_
  intro n hn
  rcases List.mem_singleton.1 hn with h
  rw [h]
  right
  exact ⟨rfl, rfl, rfl⟩

/-- Witness of C3 at the seeded initial state. -/
theorem C3_witness : TagInv welcomeNote :=
  C3_tags_invariant [] welcomeNote (by simp [runOps])

theorem decDigit_mem (d : Nat) (h : d < 10) :
    decDigit d ∈ ("0123456789" : String).data := by
  interval_cases d <;> decide

theorem natToDecAux_digits (fuel : Nat) :
    ∀ n, ∀ c ∈ natToDecAux fuel n, c ∈ ("0123456789" : String).data := by
  induction fuel with
  | zero => intro n c hc; exact absurd hc (by simp [natToDecAux])
  | succ fuel ih =>
    intro n c hc
    rw [natToDecAux] at hc
    by_cases h : n < 10
    · rw [if_pos h] at hc
      rw [List.mem_singleton.1 hc]
      exact decDigit_mem n h
    · rw [if_neg h] at hc
      rcases List.mem_append.1 hc with h1 | h1
      · exact ih (n / 10) c h1
      · rw [List.mem_singleton.1 h1]
        exact decDigit_mem (n % 10) (Nat.mod_lt n (by omega))

theorem natToDecAux_ne_nil (fuel n : Nat) (hf : 0 < fuel) :
    natToDecAux fuel n ≠ [] := by
  cases fuel with
  | zero => omega
  | succ f =>
    rw [natToDecAux]
    by_cases h : n < 10 <;> simp [h]

theorem natToString_ne_welcome (n : Nat) : natToString n ≠ "welcome" := by
  intro h
  have hd : natToDec n = ("welcome" : String).data := congrArg String.data h
  have hw : 'w' ∈ natToDec n := by rw [hd]; decide
  exact absurd (natToDecAux_digits (n + 1) n 'w' hw) (by decide)

theorem natToDecAux_fuel (f1 : Nat) :
    ∀ f2 n, n < f1 → n < f2 → natToDecAux f1 n = natToDecAux f2 n := by
  induction f1 with
  | zero => intro f2 n h; exact absurd h (Nat.not_lt_zero n)
  | succ f1 ih =>
    intro f2 n h1 h2
    cases f2 with
    | zero => exact absurd h2 (Nat.not_lt_zero n)
    | succ f2 =>
      rw [natToDecAux, natToDecAux]
      by_cases h : n < 10
      · rw [if_pos h, if_pos h]
      · rw [if_neg h, if_neg h]
        have hd : n / 10 < n := Nat.div_lt_self (by omega) (by omega)
        rw [ih f2 (n / 10) (by omega) (by omega)]

theorem decDigit_inj (d e : Nat) (hd : d < 10) (he : e < 10)
    (h : decDigit d = decDigit e) : d = e := by
  interval_cases d <;> interval_cases e <;> first | rfl | exact absurd h (by decide)

theorem natToDec_inj : ∀ m n : Nat, natToDec m = natToDec n → m = n := by
  intro m
  induction m using Nat.strong_induction_on with
  | _ m ih =>
    intro n h
    rw [natToDec, natToDecAux, natToDec, natToDecAux] at h
    by_cases hm : m < 10 <;> by_cases hn : n < 10
    · rw [if_pos hm, if_pos hn] at h
      injection h with h1 _
      exact decDigit_inj m n hm hn h1
    · exfalso
      rw [if_pos hm, if_neg hn] at h
      have hlen := congrArg List.length h
      have hne : natToDecAux n (n / 10) ≠ [] := natToDecAux_ne_nil n (n / 10) (by omega)
      have hpos : 0 < (natToDecAux n (n / 10)).length := List.length_pos.2 hne
      rw [List.length_append] at hlen
      simp only [List.length_singleton] at hlen
      omega
    · exfalso
      rw [if_neg hm, if_pos hn] at h
      have hlen := congrArg List.length h
      have hne : natToDecAux m (m / 10) ≠ [] := natToDecAux_ne_nil m (m / 10) (by omega)
      have hpos : 0 < (natToDecAux m (m / 10)).length := List.length_pos.2 hne
      rw [List.length_append] at hlen
      simp only [List.length_singleton] at hlen
      omega
    · rw [if_neg hm, if_neg hn] at h
      have h' := congrArg List.reverse h
      simp only [List.reverse_append, List.reverse_cons, List.reverse_nil,
        List.nil_append, List.cons_append, List.singleton_append] at h'
      injection h' with h1 h2
      have hmod : m % 10 = n % 10 :=
        decDigit_inj _ _ (Nat.mod_lt m (by omega)) (Nat.mod_lt n (by omega)) h1
      have hdiv' : natToDecAux m (m / 10) = natToDecAux n (n / 10) :=
        List.reverse_injective h2
      have e1 : natToDecAux m (m / 10) = natToDecAux (m / 10 + 1) (m / 10) :=
        natToDecAux_fuel m (m / 10 + 1) (m / 10) (by omega) (by omega)
      have e2 : natToDecAux n (n / 10) = natToDecAux (n / 10 + 1) (n / 10) :=
        natToDecAux_fuel n (n / 10 + 1) (n / 10) (by omega) (by omega)
      have hdiv : m / 10 = n / 10 := by
        apply ih (m / 10) (by omega)
        rw [natToDec, natToDec, ← e1, ← e2, hdiv']
      omega

theorem natToString_inj (m n : Nat) (h : natToString m = natToString n) :
    m = n :=
  natToDec_inj m n (congrArg String.data h)

/-- Instants observed by the create operations of a sequence, in order. -/
def createTimes : List Op → List Nat
  | [] => []
  | Op.create now :: ops => now :: createTimes ops
  | _ :: ops => createTimes ops

theorem createTimes_save (i c : String) (t : Nat) (ops : List Op) :
    createTimes (Op.save i c t :: ops) = createTimes ops := rfl

theorem createTimes_star (i : String) (t : Nat) (ops : List Op) :
    createTimes (Op.star i t :: ops) = createTimes ops := rfl

theorem createTimes_archive (i : String) (t : Nat) (ops : List Op) :
    createTimes (Op.archive i t :: ops) = createTimes ops := rfl

theorem createTimes_delete (i : String) (ops : List Op) :
    createTimes (Op.delete i :: ops) = createTimes ops := rfl

theorem updateNote_map_id (noteId : String) (u : NoteUpdate) (now : Nat)
    (notes : List Note) (hu : u.id = none) :
    (updateNote noteId u now notes).map Note.id = notes.map Note.id := by
  rw [updateNote, List.map_map]
  apply List.map_congr_left
  intro n _
  by_cases h : n.id = noteId
  · simp only [Function.comp_apply, if_pos h, applyUpdate, hu, Option.getD_none]
  · simp only [Function.comp_apply, if_neg h]

theorem toggleStar_map_id (noteId : String) (now : Nat) (notes : List Note) :
    (toggleStar noteId now notes).map Note.id = notes.map Note.id := by
  rw [toggleStar]
  exact updateNote_map_id noteId _ now notes rfl

theorem toggleArchive_map_id (noteId : String) (now : Nat) (notes : List Note) :
    (toggleArchive noteId now notes).map Note.id = notes.map Note.id := by
  rw [toggleArchive]
  exact updateNote_map_id noteId _ now notes rfl

theorem foldl_ids_nodup (ops : List Op) :
    ∀ (notes : List Note) (ts : List Nat), (notes.map Note.id).Nodup →
      (∀ i ∈ notes.map Note.id, i = "welcome" ∨ ∃ t ∈ ts, i = natToString t) →
      (createTimes ops).Nodup →
      (∀ t ∈ createTimes ops, t ∉ ts) →
      ((ops.foldl applyOp notes).map Note.id).Nodup := by
  induction ops with
  | nil => intro notes ts h1 _ _ _; exact h1
  | cons op ops ih =>
    intro notes ts h1 h2 h3 h4
    rw [List.foldl_cons]
    cases op with
    | create now =>
      rw [createTimes] at h3 h4
      refine ih (createNote now notes) (now :: ts) ?_ ?_ (List.nodup_cons.1 h3).2 ?_
      · rw [createNote]
        simp only [List.map_cons]
        refine List.nodup_cons.2 ⟨?_, h1⟩
        intro hmem
        rcases h2 _ hmem with hw | ⟨t, ht, he⟩
        · exact natToString_ne_welcome now hw
        · rw [natToString_inj now t he] at h4
          exact h4 t (List.mem_cons_self _ _) ht
      · rw [createNote]
        simp only [List.map_cons]
        intro i hi
        rcases List.mem_cons.1 hi with hh | hh
        · right
          exact ⟨now, List.mem_cons_self _ _, hh⟩
        · rcases h2 i hh with hw | ⟨t, ht, he⟩
          · left; exact hw
          · right; exact ⟨t, List.mem_cons_of_mem _ ht, he⟩
      · intro t ht
        rw [List.mem_cons]
        rintro (he | hin)
        · rw [he] at ht
          exact (List.nodup_cons.1 h3).1 ht
        · exact h4 t (List.mem_cons_of_mem _ ht) hin
    | save noteId c now =>
      rw [createTimes_save] at h3 h4
      have hm : ((applyOp notes (Op.save noteId c now)).map Note.id) =
          notes.map Note.id := updateNote_map_id noteId _ now notes rfl
      exact ih _ ts (hm ▸ h1) (hm ▸ h2) h3 h4
    | star noteId now =>
      rw [createTimes_star] at h3 h4
      have hm : ((applyOp notes (Op.star noteId now)).map Note.id) =
          notes.map Note.id := toggleStar_map_id noteId now notes
      exact ih _ ts (hm ▸ h1) (hm ▸ h2) h3 h4
    | archive noteId now =>
      rw [createTimes_archive] at h3 h4
      have hm : ((applyOp notes (Op.archive noteId now)).map Note.id) =
          notes.map Note.id := toggleArchive_map_id noteId now notes
      exact ih _ ts (hm ▸ h1) (hm ▸ h2) h3 h4
    | delete noteId =>
      rw [createTimes_delete] at h3 h4
      have hsub : List.Sublist ((applyOp notes (Op.delete noteId)).map Note.id)
          (notes.map Note.id) := by
        rw [applyOp, deleteNote]
        exact List.Sublist.map Note.id (List.filter_sublist notes)
      refine ih _ ts (h1.sublist hsub) ?_ h3 h4
      intro i hi
      exact h2 i (hsub.subset hi)

/-- Counterexample to C9 as stated: two create operations in the same
millisecond both derive the id from that instant, so the reachable state
holds two notes with the identical id. -/
theorem C9_counterexample :
    (runOps [Op.create 1, Op.create 1]).map Note.id = ["1", "1", "welcome"] ∧
    ¬ ((runOps [Op.create 1, Op.create 1]).map Note.id).Nodup := by
  exact ⟨by decide, by decide⟩

/-- C9 (amended): provided the create operations of the sequence observe
pairwise distinct clock instants, the ids in every reachable state are
pairwise distinct; and no operation ever rewrites an existing note's id —
save, star and archive leave the id sequence unchanged and create only
prepends a fresh one. -/
theorem C9_ids (ops : List Op) (h : (createTimes ops).Nodup) :
    ((runOps ops).map Note.id).Nodup ∧
    (∀ notes noteId c now,
      (applyOp notes (Op.save noteId c now)).map Note.id = notes.map Note.id) ∧
    (∀ notes noteId now,
      (applyOp notes (Op.star noteId now)).map Note.id = notes.map Note.id) ∧
    (∀ notes noteId now,
      (applyOp notes (Op.archive noteId now)).map Note.id = notes.map Note.id) ∧
    (∀ notes now,
      (applyOp notes (Op.create now)).map Note.id =
        natToString now :: notes.map Note.id) := by
  refine ⟨?_, ?_, ?_, ?_, ?_⟩
  · rw [runOps]
    refine foldl_ids_nodup ops [welcomeNote] [] (by decide) ?_ h ?_
    · intro i hi
      left
      exact List.mem_singleton.1 hi
    · intro t _ ht
      exact absurd ht (List.not_mem_nil t)
  · intro notes noteId c now
    exact updateNote_map_id noteId _ now notes rfl
  · intro notes noteId now
    exact toggleStar_map_id noteId now notes
  · intro notes noteId now
    exact toggleArchive_map_id noteId now notes
  · intro notes now
    rfl

/-- Witness of C9 at a concrete two-create sequence with distinct
instants. -/
theorem C9_witness :
    (createTimes [Op.create 1, Op.create 2]).Nodup ∧
    ((runOps [Op.create 1, Op.create 2]).map Note.id).Nodup :=
  ⟨by decide, (C9_ids [Op.create 1, Op.create 2] (by decide)).1⟩

theorem stepWithStore_inv (s : List Note × Option String) (op : Op)
    (h : (stepWithStore s op).1 ≠ []) :
    (stepWithStore s op).2 = some (serializeNotes (stepWithStore s op).1) := by
  show saveEffect (applyOp s.1 op) s.2 = some (serializeNotes (applyOp s.1 op))
  rw [saveEffect, if_pos]
  exact List.length_pos.2 h

theorem foldl_store_inv (ops : List Op) :
    ∀ init : List Note × Option String,
      (init.1 ≠ [] → init.2 = some (serializeNotes init.1)) →
      ((ops.foldl stepWithStore init).1 ≠ [] →
        (ops.foldl stepWithStore init).2 =
          some (serializeNotes (ops.foldl stepWithStore init).1)) := by
  induction ops with
  | nil => intro init h; exact h
  | cons op ops ih =>
    intro init _
    rw [List.foldl_cons]
    exact ih (stepWithStore init op) (stepWithStore_inv init op)

/-- Counterexample to C4 as stated: deleting the last remaining note
leaves the list empty, the save effect skips the write, and the store
keeps the serialization of the previous non-empty list, not that of the
current empty one. -/
theorem C4_counterexample :
    (runStore [Op.delete "welcome"]).1 = [] ∧
    (runStore [Op.delete "welcome"]).2 = some (serializeNotes [welcomeNote]) ∧
    (runStore [Op.delete "welcome"]).2 ≠ some (serializeNotes []) := by
  exact ⟨by decide, by decide, by decide⟩

/-- C4 (amended): after any operation sequence, whenever the resulting
note list is non-empty the store holds the full serialization of that
list under the fixed key; an operation leaving the list empty performs
no write and the stored value is retained. -/
theorem C4_store (ops : List Op) (s : List Note × Option String) (op : Op) :
    ((runStore ops).1 ≠ [] →
      (runStore ops).2 = some (serializeNotes (runStore ops).1)) ∧
    (applyOp s.1 op = [] → (stepWithStore s op).2 = s.2) := by
  constructor
  · rw [runStore]
    apply foldl_store_inv
    intro _
    rfl
  · intro h
    show saveEffect (applyOp s.1 op) s.2 = s.2
    rw [h]
    rfl

/-- Witness of C4 at the seeded state and at the delete emptying it. -/
theorem C4_witness :
    ((runStore []).1 ≠ [] ∧
      (runStore []).2 = some (serializeNotes (runStore []).1)) ∧
    (applyOp (([welcomeNote], none) : List Note × Option String).1
        (Op.delete "welcome") = [] ∧
      (stepWithStore (([welcomeNote], none) : List Note × Option String)
        (Op.delete "welcome")).2 = none) :=
  ⟨⟨by decide,
      (C4_store [] (([welcomeNote], none) : List Note × Option String)
        (Op.delete "welcome")).1 (by decide)⟩,
    ⟨by decide,
      (C4_store [] (([welcomeNote], none) : List Note × Option String)
        (Op.delete "welcome")).2 (by decide)⟩⟩

/-- Counterexample to C5 as stated: the source merges the partial
blindly, so a partial carrying an id or createdAt field does rewrite
those fields of the matched note. -/
theorem C5_counterexample :
    (updateNote "a" { id := some "b" } 5 [noteA]).map Note.id = ["b"] ∧
    (updateNote "a" { createdAt := some 7 } 5 [noteA]).map Note.createdAt = [7] ∧
    noteA.id = "a" ∧ noteA.createdAt = 0 := by
  exact ⟨by decide, by decide, by decide, by decide⟩

/-- C5 (amended): provided the partial carries neither id nor createdAt
(true at every call site of the application), updating an absent id is a
no-op on the whole list, a non-matching note is returned unchanged at
its position, and the matching note gets the partial's fields merged,
updatedAt set to now, id and createdAt untouched. -/
theorem C5_update (notes : List Note) (noteId : String) (u : NoteUpdate)
    (now : Nat) (hid : u.id = none) (hca : u.createdAt = none) :
    (noteId ∉ notes.map Note.id → updateNote noteId u now notes = notes) ∧
    (∀ (i : Nat) (n : Note), notes[i]? = some n →
      (n.id ≠ noteId → (updateNote noteId u now notes)[i]? = some n) ∧
      (n.id = noteId → (updateNote noteId u now notes)[i]? = some
        { id := n.id
          title := u.title.getD n.title
          content := u.content.getD n.content
          tags := u.tags.getD n.tags
          createdAt := n.createdAt
          updatedAt := now
          isStarred := u.isStarred.getD n.isStarred
          isArchived := u.isArchived.getD n.isArchived })) := by
  constructor
  · intro hmem
    rw [updateNote]
    have hcongr : ∀ n ∈ notes, (if n.id = noteId then applyUpdate n u now else n) = n := by
      intro n hn
      rw [if_neg]
      intro h
      exact hmem (h ▸ List.mem_map_of_mem Note.id hn)
    rw [List.map_congr_left hcongr]
    exact List.map_id' notes
  · intro i n hin
    have hget : (updateNote noteId u now notes)[i]? =
        some (if n.id = noteId then applyUpdate n u now else n) := by
      rw [updateNote, List.getElem?_map, hin]
      rfl
    constructor
    · intro hne
      rw [hget, if_neg hne]
    · intro heq
      rw [hget, if_pos heq]
      simp [applyUpdate, hid, hca]

/-- Witness of C5: an absent id leaves the list unchanged, and a
star-only partial on a present id only flips isStarred and bumps
updatedAt. -/
theorem C5_witness :
    (updateNote "zzz" { isStarred := some true } 5 [noteA] = [noteA]) ∧
    (updateNote "a" { isStarred := some true } 5 [noteA])[0]? = some
      { id := "a"
        title := "foo bar"
        content := "hello"
        tags := []
        createdAt := 0
        updatedAt := 5
        isStarred := true
        isArchived := true } :=
  ⟨(C5_update [noteA] "zzz" { isStarred := some true } 5 rfl rfl).1 (by decide),
    ((C5_update [noteA] "a" { isStarred := some true } 5 rfl rfl).2 0 noteA
      (by decide)).2 (by decide)⟩

/-- C6: the load effect wraps JSON.parse in no handler, so any non-empty
stored value whose parse throws escapes the effect as an unhandled
error — the initialization does crash on malformed stored data. -/
theorem C6_load_crash (s : String) (hs : s ≠ "") :
    loadNotes (some s) none =
      Except.error "unhandled SyntaxError from JSON.parse" := by
  rw [loadNotes]
  rw [if_neg hs]

/-- Witness of C6 at a concrete malformed stored value. -/
theorem C6_witness :
    ("not json" : String) ≠ "" ∧
    loadNotes (some "not json") none =
      Except.error "unhandled SyntaxError from JSON.parse" :=
  ⟨by decide, C6_load_crash "not json" (by decide)⟩

/-- The backquote character delimiting inline code. -/
def backQuote : Char := Char.ofNat 96

theorem leadsWith_head (p : Char) (ps : List Char) (c : Char) (cs : List Char)
    (h : leadsWith (p :: ps) (c :: cs) = true) : p = c := by
  rw [leadsWith, Bool.and_eq_true] at h
  exact of_decide_eq_true h.1

theorem splitLines_ne_nil (s : List Char) : splitLines s ≠ [] := by
  cases s with
  | nil => simp [splitLines]
  | cons c cs =>
    rw [splitLines]
    by_cases h : c = '\n'
    · simp [h]
    · simp only [if_neg h]
      split
      · simp
      · simp

theorem splitLines_cons (c : Char) (cs : List Char) :
    splitLines (c :: cs) =
      if c = '\n' then [] :: splitLines cs
      else
        match splitLines cs with
        | [] => [[c]]
        | l :: ls => (c :: l) :: ls := by
  rw [splitLines]

theorem splitLines_append (a b : List Char) :
    splitLines (a ++ '\n' :: b) = splitLines a ++ splitLines b := by
  induction a with
  | nil =>
    rw [List.nil_append, splitLines_cons, if_pos rfl]
    rfl
  | cons c a ih =>
    rw [List.cons_append, splitLines_cons, splitLines_cons, ih]
    by_cases h : c = '\n'
    · rw [if_pos h, if_pos h]
      rfl
    · rw [if_neg h, if_neg h]
      rcases hsa : splitLines a with _ | ⟨l, ls⟩
      · exact absurd hsa (splitLines_ne_nil a)
      · simp

theorem renderContent_append (s t : String) :
    renderContent (s ++ "\n" ++ t) = renderContent s ++ renderContent t := by
  rw [renderContent, renderContent, renderContent, String.data_append,
    String.data_append, List.append_assoc,
    show ("\n" : String).data ++ t.data = '\n' :: t.data from rfl,
    splitLines_append, List.map_append]

theorem trimChars_eq_nil (l : List Char) (h : ∀ c ∈ l, c.isWhitespace = true) :
    trimChars l = [] := by
  rw [trimChars, List.dropWhile_eq_nil_iff.2 h]
  rfl

theorem renderLine_ws (line : List Char)
    (hws : ∀ c ∈ line, c.isWhitespace = true) :
    renderLine line = Block.lineBreak := by
  have htrim := trimChars_eq_nil line hws
  cases line with
  | nil => rfl
  | cons c cs =>
    have hc := hws c (List.mem_cons_self c cs)
    rw [renderLine, if_neg, if_neg, if_neg, if_neg, if_pos htrim]
    · intro h
      have hh := leadsWith_head '-' [' '] c cs h
      rw [← hh] at hc
      exact absurd hc (by decide)
    · intro h
      have hh := leadsWith_head '#' ['#', '#', ' '] c cs h
      rw [← hh] at hc
      exact absurd hc (by decide)
    · intro h
      have hh := leadsWith_head '#' ['#', ' '] c cs h
      rw [← hh] at hc
      exact absurd hc (by decide)
    · intro h
      have hh := leadsWith_head '#' [' '] c cs h
      rw [← hh] at hc
      exact absurd hc (by decide)

theorem leadsWith_cons (p : Char) (ps s : List Char) :
    leadsWith (p :: ps) s = true ↔ ∃ rest, s = p :: rest ∧ leadsWith ps rest = true := by
  cases s with
  | nil => simp [leadsWith]
  | cons c cs =>
    rw [leadsWith, Bool.and_eq_true]
    constructor
    · rintro ⟨h1, h2⟩
      exact ⟨cs, by rw [of_decide_eq_true h1], h2⟩
    · rintro ⟨rest, heq, h2⟩
      injection heq with e1 e2
      subst e1
      subst e2
      exact ⟨by simp, h2⟩

/-- C7: the renderer splits on newline and classifies each line
independently — headings of levels one to three by their prefixes with
the corresponding remainders, list items by the dash prefix, a break for
empty or whitespace-only lines, a paragraph otherwise — and rendering
distributes over line concatenation, so classification is stateless
across lines. -/
theorem C7_render (s t : String) (line : List Char)
    (hws : ∀ c ∈ line, c.isWhitespace = true) :
    (∀ l : List Char, leadsWith "# ".data l = true →
      renderLine l = Block.heading 1 (String.mk (l.drop 2))) ∧
    (∀ l : List Char, leadsWith "## ".data l = true →
      renderLine l = Block.heading 2 (String.mk (l.drop 3))) ∧
    (∀ l : List Char, leadsWith "### ".data l = true →
      renderLine l = Block.heading 3 (String.mk (l.drop 4))) ∧
    (∀ l : List Char, leadsWith "- ".data l = true →
      renderLine l = Block.listItem (String.mk (l.drop 2))) ∧
    renderLine line = Block.lineBreak ∧
    renderContent (s ++ "\n" ++ t) = renderContent s ++ renderContent t ∧
    renderContent "# Hello" = [Block.heading 1 "Hello"] ∧
    renderContent "- item" = [Block.listItem "item"] ∧
    renderContent "plain text" = [Block.paragraph "plain text"] := by
  refine ⟨?_, ?_, ?_, ?_, renderLine_ws line hws, renderContent_append s t,
    by decide, by decide, by decide⟩
  · intro l h
    rw [renderLine, if_pos h]
  · intro l h
    obtain ⟨r1, e1, h⟩ := (leadsWith_cons _ _ _).1 h
    obtain ⟨r2, e2, h⟩ := (leadsWith_cons _ _ _).1 h
    obtain ⟨r3, e3, h⟩ := (leadsWith_cons _ _ _).1 h
    subst e3
    subst e2
    subst e1
    rw [renderLine, if_neg (by simp [leadsWith]), if_pos (by simp [leadsWith])]
  · intro l h
    obtain ⟨r1, e1, h⟩ := (leadsWith_cons _ _ _).1 h
    obtain ⟨r2, e2, h⟩ := (leadsWith_cons _ _ _).1 h
    obtain ⟨r3, e3, h⟩ := (leadsWith_cons _ _ _).1 h
    obtain ⟨r4, e4, h⟩ := (leadsWith_cons _ _ _).1 h
    subst e4
    subst e3
    subst e2
    subst e1
    rw [renderLine, if_neg (by simp [leadsWith]), if_neg (by simp [leadsWith]),
      if_pos (by simp [leadsWith])]
  · intro l h
    obtain ⟨r1, e1, h⟩ := (leadsWith_cons _ _ _).1 h
    obtain ⟨r2, e2, h⟩ := (leadsWith_cons _ _ _).1 h
    subst e2
    subst e1
    rw [renderLine, if_neg (by simp [leadsWith]), if_neg (by simp [leadsWith]),
      if_neg (by simp [leadsWith]), if_pos (by simp [leadsWith])]

/-- Witness of C7 at a whitespace-only line and concrete strings. -/
theorem C7_witness :
    (∀ c ∈ ("  " : String).data, c.isWhitespace = true) ∧
    renderLine ("  " : String).data = Block.lineBreak :=
  ⟨by decide, (C7_render "a" "b" ("  " : String).data (by decide)).2.2.2.2.1⟩

theorem splitFirst_none (p : Char) (ps : List Char) :
    ∀ s : List Char, p ∉ s → splitFirst (p :: ps) s = none := by
  intro s
  induction s with
  | nil => intro _; rfl
  | cons c cs ih =>
    intro hp
    rw [splitFirst, if_neg, ih (fun h => hp (List.mem_cons_of_mem c h))]
    intro h
    have hh := leadsWith_head p ps c cs h
    exact hp (by rw [hh]; exact List.mem_cons_self c cs)

theorem replaceWrappedAux_id (p : Char) (ps pre post : List Char) (fuel : Nat)
    (s : List Char) (hp : p ∉ s) :
    replaceWrappedAux (p :: ps) pre post fuel s = s := by
  cases fuel with
  | zero => rfl
  | succ f => rw [replaceWrappedAux, splitFirst_none p ps s hp]

theorem replaceTagsAux_id (pre post : List Char) (fuel : Nat) :
    ∀ s : List Char, '#' ∉ s → replaceTagsAux pre post fuel s = s := by
  induction fuel with
  | zero => intro s _; rfl
  | succ f ih =>
    intro s hp
    cases s with
    | nil => rfl
    | cons c cs =>
      rw [replaceTagsAux, if_neg, ih cs (fun h => hp (List.mem_cons_of_mem c h))]
      intro h
      exact hp (by rw [← h]; exact List.mem_cons_self c cs)

theorem formatInline_id (line : List Char) (hstar : '*' ∉ line)
    (htick : backQuote ∉ line) (hhash : '#' ∉ line) :
    formatInline line = line := by
  have h1 : replaceWrapped ['*', '*'] "<strong>".data "</strong>".data line = line := by
    rw [replaceWrapped]
    exact replaceWrappedAux_id '*' ['*'] _ _ _ line hstar
  have h2 : replaceWrapped ['*'] "<em>".data "</em>".data line = line := by
    rw [replaceWrapped]
    exact replaceWrappedAux_id '*' [] _ _ _ line hstar
  have h3 : replaceWrapped "`".data codeOpen.data "</code>".data line = line := by
    rw [replaceWrapped]
    exact replaceWrappedAux_id backQuote [] _ _ _ line htick
  show replaceTagsAux tagOpen.data "</span>".data
      (replaceWrapped "`".data codeOpen.data "</code>".data
        (replaceWrapped ['*'] "<em>".data "</em>".data
          (replaceWrapped ['*', '*'] "<strong>".data "</strong>".data line))).length
      (replaceWrapped "`".data codeOpen.data "</code>".data
        (replaceWrapped ['*'] "<em>".data "</em>".data
          (replaceWrapped ['*', '*'] "<strong>".data "</strong>".data line))) = line
  rw [h1, h2, h3]
  exact replaceTagsAux_id _ _ line.length line hhash

/-- C10: the paragraph path substitutes plainly on the raw line with no
HTML escaping — a line free of the four marker characters is emitted
verbatim as the paragraph fragment, and in particular concrete script
and image markup passes through unchanged. -/
theorem C10_no_escaping (line : List Char)
    (hstar : '*' ∉ line) (htick : backQuote ∉ line) (hhash : '#' ∉ line)
    (hne : trimChars line ≠ []) (h1 : leadsWith "# ".data line = false)
    (h2 : leadsWith "## ".data line = false)
    (h3 : leadsWith "### ".data line = false)
    (h4 : leadsWith "- ".data line = false) :
    renderLine line = Block.paragraph (String.mk line) ∧
    renderLine "<script>alert(1)</script>".data =
      Block.paragraph "<script>alert(1)</script>" ∧
    renderLine "<img src=x onerror=alert(1)>".data =
      Block.paragraph "<img src=x onerror=alert(1)>" := by
  refine ⟨?_, by decide, by decide⟩
  rw [renderLine, if_neg, if_neg, if_neg, if_neg, if_neg hne]
  · rw [formatInline_id line hstar htick hhash]
  · simp [h4]
  · simp [h3]
  · simp [h2]
  · simp [h1]

/-- Witness of C10 at a concrete marker-free HTML line. -/
theorem C10_witness :
    ('*' ∉ ("<p>hi</p>" : String).data ∧
      backQuote ∉ ("<p>hi</p>" : String).data ∧
      '#' ∉ ("<p>hi</p>" : String).data ∧
      trimChars ("<p>hi</p>" : String).data ≠ []) ∧
    renderLine ("<p>hi</p>" : String).data = Block.paragraph "<p>hi</p>" :=
  ⟨by decide,
    (C10_no_escaping ("<p>hi</p>" : String).data (by decide) (by decide)
      (by decide) (by decide) (by decide) (by decide) (by decide) (by decide)).1⟩
